import Mathlib

/-!
Verification development for the sf_benchmarks repository (src/main.cpp).

The evaluation-dispatch-and-timing engine of main.cpp is shallowly embedded
here.  IEEE-754 doubles are modelled as exact rationals (ℚ); decimal literals
of the source are taken at face value.  Wall-clock time, which the harness
only reads through clock_gettime, enters the embedding as an explicit
rational parameter (the measured elapsed seconds).  Buffers are lists of
rationals; the batched evaluation loops of the source are embedded as
explicit write lists (position, value) applied sequentially to a buffer,
which mirrors the pointer stores of the C++ loops.
-/

/-- The `Params` class (main.cpp lines 45-48): a domain pair
`std::pair<double, double> domain{0.0, 1.0}`; default construction gives
the interval (0, 1). -/
structure Params where
  lo : ℚ := 0
  hi : ℚ := 1
deriving DecidableEq, Repr

/-- A single buffer store `buf[i] = v`, as performed by the evaluation loops. -/
def writeAt (buf : List ℚ) (p : ℕ × ℚ) : List ℚ :=
  buf.set p.1 p.2

/-- Apply a sequence of stores to a buffer, in order (later stores win). -/
def applyWrites (buf : List ℚ) (w : List (ℕ × ℚ)) : List ℚ :=
  w.foldl writeAt buf

/-- Proof helper: the last value a write sequence stores at index i, if any. -/
def lastWrite (w : List (ℕ × ℚ)) (i : ℕ) : Option ℚ :=
  match w with
  | [] => none
  | p :: rest => (lastWrite rest i).or (if p.1 = i then some p.2 else none)

/-- The timed repeat loop of `test_func` (main.cpp lines 170-180): perform
`Nrepeat` sequential full-buffer evaluations into the same reusable output
buffer.  A pure adapter emits the same write sequence on every repeat. -/
def repeatRun (w : List (ℕ × ℚ)) (buf : List ℚ) : ℕ → List ℚ
  | 0 => buf
  | r + 1 => applyWrites (repeatRun w buf r) w

/-- The pair-output branch of `test_func` (main.cpp lines 171-174):
`for i: (res[2i], res[2i+1]) = f(vals[i])`, started at index `i`. -/
def pairWritesFrom (f : ℚ → ℚ × ℚ) (i : ℕ) : List ℚ → List (ℕ × ℚ)
  | [] => []
  | v :: vs => (2 * i, (f v).1) :: (2 * i + 1, (f v).2) :: pairWritesFrom f (i + 1) vs

/-- The loop body of `scalar_func_apply` (main.cpp lines 88-95):
`for i in [0,N): res[i] = f(vals[i])`, started at index `i`. -/
def scalarWritesFrom (f : ℚ → ℚ) (i : ℕ) : List ℚ → List (ℕ × ℚ)
  | [] => []
  | v :: vs => (i, f v) :: scalarWritesFrom f (i + 1) vs

/-- The iteration starts of the strided loops in `sctl_apply` (main.cpp
lines 63-73) and `vec_func_apply` (lines 75-86): `for (i = 0; i < N; i += W)`.
`fuel` bounds the iteration count; `N + 1` iterations always suffice when
`0 < W`, which is the backends' lane-width contract. -/
def loopStartsAux (W N : ℕ) : ℕ → ℕ → List ℕ
  | 0, _ => []
  | fuel + 1, i => if i < N then i :: loopStartsAux W N fuel (i + W) else []

/-- All values taken by the loop counter of `for (i = 0; i < N; i += W)`. -/
def loopStarts (W N : ℕ) : List ℕ :=
  loopStartsAux W N (N + 1) 0

/-- The index lanes touched by one strided pass: for each loop start `i`,
both the aligned load `vals + i` and the aligned store `res + i` touch
indices `i, i+1, ..., i+W-1`. -/
def laneIndices (W N : ℕ) : List ℕ :=
  (loopStarts W N).flatMap (fun i => (List.range W).map (fun j => i + j))

/-- `sctl_apply` (main.cpp lines 63-73): stride the buffer by the vector
length `W`; each iteration loads the `W` input lanes starting at `i`,
applies the vector function, and stores the `W` result lanes starting at
`i`.  The vector function is modelled lane-wise: `fv lanes j` is lane `j`
of the register produced from the loaded lanes. -/
def sctl_apply (W : ℕ) (fv : List ℚ → ℕ → ℚ) (vals : List ℚ) : List (ℕ × ℚ) :=
  (loopStarts W vals.length).flatMap
    (fun i => (List.range W).map (fun j => (i + j, fv ((vals.drop i).take W) j)))

/-- `vec_func_apply` (main.cpp lines 75-86): identical strided load/apply/store
loop, with `VEC_T::size()` as the stride `W`. -/
def vec_func_apply (W : ℕ) (fv : List ℚ → ℕ → ℚ) (vals : List ℚ) : List (ℕ × ℚ) :=
  (loopStarts W vals.length).flatMap
    (fun i => (List.range W).map (fun j => (i + j, fv ((vals.drop i).take W) j)))

/-- The callable shapes `test_func` distinguishes at lines 171-179:
`fun_cdx1_x2` (scalar-in/pair-out), `std::shared_ptr<baobzi::Baobzi>`
(batched approximant handle), and everything else (`multi_eval_func`,
a batched buffer evaluator).  Batched evaluators are modelled by the write
sequence they emit from the input buffer. -/
inductive FunT where
  | pairFn (f : ℚ → ℚ × ℚ)
  | baobziFn (f : List ℚ → List (ℕ × ℚ))
  | multiFn (f : List ℚ → List (ℕ × ℚ))

/-- The writes one full-buffer evaluation performs (the body of the repeat
loop, main.cpp lines 171-179). -/
def FunT.writes : FunT → List ℚ → List (ℕ × ℚ)
  | .pairFn f, vals => pairWritesFrom f 0 vals
  | .baobziFn f, vals => f vals
  | .multiFn f, vals => f vals

/-- The allocated output size (main.cpp lines 160-163): `res_size = vals.size()`,
doubled exactly when `FUN_T` is the pair-output type `fun_cdx1_x2`. -/
def FunT.resSize : FunT → ℕ → ℕ
  | .pairFn _, n => 2 * n
  | .baobziFn _, n => n
  | .multiFn _, n => n

/-- `scalar_func_apply` (main.cpp lines 88-95) lifts a scalar function to a
batched evaluator by elementwise application. -/
def scalar_func_apply (f : ℚ → ℚ) : FunT :=
  .multiFn (scalarWritesFrom f 0)

/-- `BenchResult` (main.cpp lines 103-121): output buffer, elapsed seconds,
label, evaluation count and the domain parameters used.  The one-argument
constructor (line 112) leaves the buffer empty. -/
structure BenchResult where
  res : List ℚ := []
  eval_time : ℚ := 0
  label : String
  n_evals : ℕ := 0
  params : Params := {}

/-- `BenchResult::Mevals` (main.cpp line 117): `n_evals / eval_time / 1E6`. -/
def BenchResult.Mevals (br : BenchResult) : ℚ :=
  (br.n_evals : ℚ) / br.eval_time / 1000000

/-- `transform_domain` (main.cpp lines 143-147):
`delta = upper - lower; vals * delta + lower`, elementwise. -/
def transform_domain (vals : List ℚ) (lower upper : ℚ) : List ℚ :=
  let delta := upper - lower
  vals.map (fun v => v * delta + lower)

/-- The domain lookup `params[name]` inside `test_func` (line 157): the map
is passed by value, and `operator[]` default-constructs `Params` (hence the
(0, 1) domain) for an absent name. -/
def getParams (params : List (String × Params)) (name : String) : Params :=
  (params.lookup name).getD {}

/-- The domain-mapped input buffer `test_func` evaluates (line 158). -/
def test_inputs (params : List (String × Params)) (name : String)
    (vals_in : List ℚ) : List ℚ :=
  let par := getParams params name
  transform_domain vals_in par.lo par.hi

/-- `test_func` (main.cpp lines 149-186).  If the backend map lacks `name`
the labelled empty result is returned (lines 154-155).  Otherwise the input
is domain-mapped, a buffer of `res_size` cells is allocated, the evaluation
is repeated `Nrepeat` times into that buffer, and the measured elapsed
seconds (`elapsed`, read from the monotonic clock in the source) is stored. -/
def test_func (name lib : String) (funs : List (String × FunT))
    (params : List (String × Params)) (vals_in : List ℚ) (Nrepeat : ℕ)
    (elapsed : ℚ) : BenchResult :=
  let label := lib ++ "_" ++ name
  match funs.lookup name with
  | none => { label := label }
  | some f =>
    let par := getParams params name
    let vals := transform_domain vals_in par.lo par.hi
    let res_size := f.resSize vals.length
    { res := repeatRun (f.writes vals) (List.replicate res_size 0) Nrepeat
      eval_time := elapsed
      label := label
      n_evals := vals.length * Nrepeat
      params := par }

/-- The domain bracket printed by `operator<<` (main.cpp line 138). -/
def domainString (p : Params) : String :=
  "[" ++ toString p.lo ++ ", " ++ toString p.hi ++ "]"

/-- `operator<<` for `BenchResult` (main.cpp lines 123-141): nothing at all
is emitted when the output buffer is empty; otherwise one line with label,
Mevals, the mean of the outputs, and the domain. -/
def BenchResult.report (br : BenchResult) : String :=
  if br.res.length = 0 then ""
  else
    br.label ++ ": " ++ toString br.Mevals ++ " " ++
      toString (br.res.sum / (br.res.length : ℚ)) ++ "   " ++
      domainString br.params ++ "\n"

/-- `parse_args` (main.cpp lines 319-325): insert every supplied token into
a set.  `main` passes `argc - 1, argv + 1`, so the argument here is the list
of bare tokens after the program name. -/
def parse_args (argv : List String) : Finset String :=
  argv.toFinset

/-- The union of all backend key sets (main.cpp lines 1128-1177), abstracted
over the list of the backends' key lists. -/
def funUnion (keySets : List (List String)) : Finset String :=
  keySets.foldl (fun acc ks => acc ∪ ks.toFinset) ∅

/-- The requested function set `keys_to_eval` (main.cpp lines 1179-1184):
with a nonempty filter, `std::set_intersection` of the union with the filter;
otherwise the whole union. -/
def keys_to_eval (input_keys fun_union : Finset String) : Finset String :=
  if 0 < input_keys.card then fun_union ∩ input_keys else fun_union

/-- The canonical sample of one configuration (main.cpp line 1214):
`vals = 0.5 * (Random(n) + 1.0)` where `Random` draws from [-1, 1]. -/
def drawSample (rand : List ℚ) : List ℚ :=
  rand.map (fun x => (1 / 2) * (x + 1))

/-- The complex canonical sample (main.cpp line 1216):
`cvals = 0.5 * (Random(n) + (1 + 1i))`, componentwise on (re, im). -/
def drawCSample (crand : List (ℚ × ℚ)) : List (ℚ × ℚ) :=
  crand.map (fun z => ((1 / 2) * (z.1 + 1), (1 / 2) * (z.2 + 1)))

/-- The callable shapes of the cvals-consuming backend maps:
`multi_eval_func<cdouble>` (`gsl_complex_funs`, main.cpp lines 545-556) and
`fun_cdx1_x2` (`hank10x_funs`, lines 497-503).  A complex double is a pair
(re, im) of rationals. -/
inductive FunTC where
  | pairFn (f : ℚ × ℚ → (ℚ × ℚ) × (ℚ × ℚ))
  | multiFn (f : List (ℚ × ℚ) → List (ℕ × (ℚ × ℚ)))

/-- The pair-output branch of `test_func` (lines 171-174) at `VAL_T = cdouble`. -/
def pairWritesFromC (f : ℚ × ℚ → (ℚ × ℚ) × (ℚ × ℚ)) (i : ℕ) :
    List (ℚ × ℚ) → List (ℕ × (ℚ × ℚ))
  | [] => []
  | v :: vs => (2 * i, (f v).1) :: (2 * i + 1, (f v).2) :: pairWritesFromC f (i + 1) vs

/-- The writes of one full-buffer complex evaluation (lines 171-179). -/
def FunTC.writes : FunTC → List (ℚ × ℚ) → List (ℕ × (ℚ × ℚ))
  | .pairFn f, vals => pairWritesFromC f 0 vals
  | .multiFn f, vals => f vals

/-- The allocated complex output size (lines 160-163). -/
def FunTC.resSize : FunTC → ℕ → ℕ
  | .pairFn _, n => 2 * n
  | .multiFn _, n => n

/-- Sequential stores into a complex buffer. -/
def applyWritesC (buf : List (ℚ × ℚ)) (w : List (ℕ × (ℚ × ℚ))) : List (ℚ × ℚ) :=
  w.foldl (fun b p => b.set p.1 p.2) buf

/-- The timed repeat loop (lines 170-180) over a complex buffer. -/
def repeatRunC (w : List (ℕ × (ℚ × ℚ))) (buf : List (ℚ × ℚ)) : ℕ → List (ℚ × ℚ)
  | 0 => buf
  | r + 1 => applyWritesC (repeatRunC w buf r) w

/-- `BenchResult<cdouble>` (main.cpp lines 103-121). -/
structure BenchResultC where
  res : List (ℚ × ℚ) := []
  eval_time : ℚ := 0
  label : String
  n_evals : ℕ := 0
  params : Params := {}

/-- `transform_domain` (lines 143-147) instantiated at `VAL_T = cdouble`:
`delta = upper - lower` casts the real difference to the complex value
(delta, 0), so `z * delta + lower = (z.re * delta + lower, z.im * delta)`. -/
def transform_domainC (vals : List (ℚ × ℚ)) (lower upper : ℚ) : List (ℚ × ℚ) :=
  let delta := upper - lower
  vals.map (fun z => (z.1 * delta + lower, z.2 * delta))

/-- The domain-mapped complex input buffer `test_func` evaluates (line 158). -/
def test_inputsC (params : List (String × Params)) (name : String)
    (vals_in : List (ℚ × ℚ)) : List (ℚ × ℚ) :=
  let par := getParams params name
  transform_domainC vals_in par.lo par.hi

/-- `test_func` (lines 149-186) instantiated at `VAL_T = cdouble`, as called
for `gsl_cdx1` and `hank10x_dx1`. -/
def test_funcC (name lib : String) (funs : List (String × FunTC))
    (params : List (String × Params)) (vals_in : List (ℚ × ℚ)) (Nrepeat : ℕ)
    (elapsed : ℚ) : BenchResultC :=
  let label := lib ++ "_" ++ name
  match funs.lookup name with
  | none => { label := label }
  | some f =>
    let par := getParams params name
    let vals := transform_domainC vals_in par.lo par.hi
    let res_size := f.resSize vals.length
    { res := repeatRunC (f.writes vals) (List.replicate res_size (0, 0)) Nrepeat
      eval_time := elapsed
      label := label
      n_evals := vals.length * Nrepeat
      params := par }

/-- One entry of the interleaved result stream of a sweep: the source prints
real-valued results and complex results from the same per-key loop body. -/
inductive SweepResult where
  | real (r : BenchResult)
  | cplx (r : BenchResultC)

/-- One configuration's sweep (main.cpp lines 1218-1252): both samples are
drawn once, before the function loop (lines 1214 and 1216).  Every
real-valued backend receives the one vector `vals` (the float maps receive
its cast `fvals`, the identity in the exact rational model), while
`gsl_cdx1` (line 1239) and `hank10x_dx1` (line 1241) receive the
independently drawn complex vector `cvals`.  The per-key ordering of calls
is abstracted; the set of calls made is preserved. -/
def runSweep (keys : List String) (backends : List (String × List (String × FunT)))
    (cbackends : List (String × List (String × FunTC)))
    (params : List (String × Params)) (rand : List ℚ) (crand : List (ℚ × ℚ))
    (Nrepeat : ℕ) (elapsed : ℚ) : List SweepResult :=
  let vals := drawSample rand
  let cvals := drawCSample crand
  keys.flatMap (fun key =>
    backends.map
        (fun b => SweepResult.real (test_func key b.1 b.2 params vals Nrepeat elapsed)) ++
      cbackends.map
        (fun b => SweepResult.cplx (test_funcC key b.1 b.2 params cvals Nrepeat elapsed)))

/-- The IEEE-754 double nearest π, the exact value of `M_PI`. -/
def mpi : ℚ := 884279719003555 / 281474976710656

/-- The domain table of `main` (main.cpp lines 403-410).  Functions such as
sinh, tanh, sqrt and lgamma have no entry. -/
def mainParams : List (String × Params) :=
  [("sin_pi", { lo := 0, hi := 2 }), ("cos_pi", { lo := 0, hi := 2 }),
   ("sin", { lo := 0, hi := 2 * mpi }), ("cos", { lo := 0, hi := 2 * mpi }),
   ("tan", { lo := 0, hi := 2 * mpi }), ("asin", { lo := -1, hi := 1 }),
   ("acos", { lo := -1, hi := 1 }), ("atan", { lo := -100, hi := 100 }),
   ("erf", { lo := -1, hi := 1 }), ("erfc", { lo := -1, hi := 1 }),
   ("exp", { lo := -10, hi := 10 }), ("log", { lo := 0, hi := 10 }),
   ("asinh", { lo := -100, hi := 100 }), ("acosh", { lo := 1, hi := 1000 }),
   ("atanh", { lo := -1, hi := 1 }), ("bessel_Y0", { lo := 1 / 10, hi := 30 }),
   ("bessel_Y1", { lo := 1 / 10, hi := 30 }), ("bessel_Y2", { lo := 1 / 10, hi := 30 })]

/-- Helper: applying stores never changes the buffer length. -/
theorem length_applyWrites : ∀ (w : List (ℕ × ℚ)) (buf : List ℚ),
    (applyWrites buf w).length = buf.length
  | [], _ => rfl
  | p :: rest, buf => by
    have step : applyWrites buf (p :: rest) = applyWrites (buf.set p.1 p.2) rest := rfl
    rw [step, length_applyWrites rest, List.length_set]

/-- Helper: the cell an in-bounds index holds after a write sequence is the
last value stored there, or the original cell if the sequence never touches
that index. -/
theorem getElem?_applyWrites : ∀ (w : List (ℕ × ℚ)) (buf : List ℚ) (i : ℕ),
    i < buf.length → (applyWrites buf w)[i]? = (lastWrite w i).or buf[i]?
  | [], buf, i, _ => by simp [applyWrites, lastWrite]
  | p :: rest, buf, i, h => by
    have h2 : i < (buf.set p.1 p.2).length := by simpa using h
    have step : applyWrites buf (p :: rest) = applyWrites (buf.set p.1 p.2) rest := rfl
    rw [step, getElem?_applyWrites rest _ i h2]
    show (lastWrite rest i).or (buf.set p.1 p.2)[i]? =
      ((lastWrite rest i).or (if p.1 = i then some p.2 else none)).or buf[i]?
    rw [Option.or_assoc, List.getElem?_set]
    by_cases hpi : p.1 = i
    · simp [hpi, show i < buf.length from h]
    · simp [hpi]

/-- Helper: replaying the same write sequence a second time changes nothing. -/
theorem applyWrites_idem (buf : List ℚ) (w : List (ℕ × ℚ)) :
    applyWrites (applyWrites buf w) w = applyWrites buf w := by
  apply List.ext_getElem?
  intro i
  by_cases h : i < buf.length
  · have h1 : i < (applyWrites buf w).length := by rw [length_applyWrites]; exact h
    rw [getElem?_applyWrites w _ i h1, getElem?_applyWrites w buf i h, ← Option.or_assoc,
      Option.or_self]
  · have h1 : (applyWrites buf w).length ≤ i := by rw [length_applyWrites]; omega
    have h2 : (applyWrites (applyWrites buf w) w).length ≤ i := by
      rw [length_applyWrites, length_applyWrites]; omega
    rw [List.getElem?_eq_none h1, List.getElem?_eq_none h2]

/-- Helper: for a pure adapter, one or more timed repeats leave the buffer
exactly as a single evaluation does. -/
theorem repeatRun_eq_once (w : List (ℕ × ℚ)) (buf : List ℚ) :
    ∀ r : ℕ, 1 ≤ r → repeatRun w buf r = applyWrites buf w := by
  intro r hr
  induction r with
  | zero => exact absurd hr (by omega)
  | succ n ih =>
    rcases Nat.eq_zero_or_pos n with h0 | hpos
    · subst h0; rfl
    · show applyWrites (repeatRun w buf n) w = applyWrites buf w
      rw [ih hpos, applyWrites_idem]

/-- Helper: the (0, 1) domain map is the identity. -/
theorem transform_domain_id (vals : List ℚ) : transform_domain vals 0 1 = vals := by
  simp [transform_domain]

/-- Helper: domain mapping preserves the buffer length. -/
theorem length_transform_domain (vals : List ℚ) (lo hi : ℚ) :
    (transform_domain vals lo hi).length = vals.length := by
  simp [transform_domain]

/-- Helper: unfolding of `test_func` when the backend lacks the name. -/
theorem test_func_not_found {funs : List (String × FunT)} {name : String}
    (lib : String) (params : List (String × Params)) (vals_in : List ℚ)
    (Nrepeat : ℕ) (elapsed : ℚ) (h : funs.lookup name = none) :
    test_func name lib funs params vals_in Nrepeat elapsed =
      { label := lib ++ "_" ++ name } := by
  simp [test_func, h]

/-- Helper: unfolding of `test_func` when the backend has the name. -/
theorem test_func_found {funs : List (String × FunT)} {name : String} {f : FunT}
    (lib : String) (params : List (String × Params)) (vals_in : List ℚ)
    (Nrepeat : ℕ) (elapsed : ℚ) (h : funs.lookup name = some f) :
    test_func name lib funs params vals_in Nrepeat elapsed =
      { res := repeatRun (f.writes (test_inputs params name vals_in))
                 (List.replicate (f.resSize vals_in.length) 0) Nrepeat
        eval_time := elapsed
        label := lib ++ "_" ++ name
        n_evals := vals_in.length * Nrepeat
        params := getParams params name } := by
  simp [test_func, h, test_inputs, length_transform_domain]

/-- Claim C8: for every input vector, the domain mapper with Domain = (0, 1)
returns the input vector unchanged (the map is the identity; exact in the
rational model of doubles). -/
theorem mapper_zero_one_is_identity (vals : List ℚ) :
    transform_domain vals 0 1 = vals :=
  transform_domain_id vals

/-- Claim C4: for every (pure) adapter, input buffer and repeat count R ≥ 1,
the output buffer retained after the R timed full-buffer evaluations equals
the buffer produced by a single evaluation on the same inputs: each repeat
overwrites the reusable buffer with identical values. -/
theorem repeats_retain_single_evaluation (name lib : String)
    (funs : List (String × FunT)) (params : List (String × Params))
    (vals_in : List ℚ) (R : ℕ) (t t' : ℚ) (hR : 1 ≤ R) :
    (test_func name lib funs params vals_in R t).res =
      (test_func name lib funs params vals_in 1 t').res := by
  cases hl : funs.lookup name with
  | none => rw [test_func_not_found lib params vals_in R t hl,
      test_func_not_found lib params vals_in 1 t' hl]
  | some f =>
    rw [test_func_found lib params vals_in R t hl,
      test_func_found lib params vals_in 1 t' hl]
    show repeatRun _ _ R = repeatRun _ _ 1
    rw [repeatRun_eq_once _ _ R hR, repeatRun_eq_once _ _ 1 (le_refl 1)]

/-- Witness for C4 at a concrete adapter, buffer and repeat count. -/
theorem repeats_retain_single_evaluation_witness :
    1 ≤ 3 ∧
      (test_func "sin" "std_dx1" [("sin", scalar_func_apply (fun x => x + 1))]
          [] [0, 1 / 2] 3 5).res =
        (test_func "sin" "std_dx1" [("sin", scalar_func_apply (fun x => x + 1))]
          [] [0, 1 / 2] 1 7).res :=
  ⟨by decide,
   repeats_retain_single_evaluation "sin" "std_dx1"
     [("sin", scalar_func_apply (fun x => x + 1))] [] [0, 1 / 2] 3 5 7 (by decide)⟩

/-- Claim C3: for a FunctionName absent from a backend's map, `test_func`
returns the labelled BenchResult with an empty (size 0) output buffer --- a
normal return, not a failure --- and the reporter prints zero characters
for it. -/
theorem missing_adapter_silent_empty (name lib : String)
    (funs : List (String × FunT)) (params : List (String × Params))
    (vals_in : List ℚ) (R : ℕ) (t : ℚ) (h : funs.lookup name = none) :
    (test_func name lib funs params vals_in R t).res.length = 0 ∧
      (test_func name lib funs params vals_in R t).report = "" ∧
      (test_func name lib funs params vals_in R t).label = lib ++ "_" ++ name := by
  rw [test_func_not_found lib params vals_in R t h]
  exact ⟨rfl, rfl, rfl⟩

/-- Witness for C3: the empty backend map lacks "sinh". -/
theorem missing_adapter_silent_empty_witness :
    ([] : List (String × FunT)).lookup "sinh" = none ∧
      (test_func "sinh" "gsl_dx1" [] [] [0, 1] 10 1).res.length = 0 ∧
      (test_func "sinh" "gsl_dx1" [] [] [0, 1] 10 1).report = "" ∧
      (test_func "sinh" "gsl_dx1" [] [] [0, 1] 10 1).label = "gsl_dx1" ++ "_" ++ "sinh" :=
  ⟨rfl, missing_adapter_silent_empty "sinh" "gsl_dx1" [] [] [0, 1] 10 1 rfl⟩

/-- Claim C10: a FunctionName with no entry in the domain table gets the
default-constructed domain (0, 1), so the evaluated inputs equal the
canonical sample unchanged, and the domain carried by (and printed for)
such a result is [0, 1]. -/
theorem absent_domain_entry_defaults (name lib : String)
    (funs : List (String × FunT)) (params : List (String × Params))
    (vals_in : List ℚ) (R : ℕ) (t : ℚ) (h : params.lookup name = none) :
    getParams params name = { lo := 0, hi := 1 } ∧
      test_inputs params name vals_in = vals_in ∧
      (test_func name lib funs params vals_in R t).params = { lo := 0, hi := 1 } ∧
      domainString { lo := 0, hi := 1 } = "[0, 1]" := by
  have hg : getParams params name = { lo := 0, hi := 1 } := by
    simp [getParams, h]
  refine ⟨hg, ?_, ?_, ?_⟩
  · rw [test_inputs, hg]
    exact transform_domain_id vals_in
  · cases hl : funs.lookup name with
    | none => rw [test_func_not_found lib params vals_in R t hl]
    | some f =>
      rw [test_func_found lib params vals_in R t hl]
      exact hg
  · rfl

/-- Witness for C10: "sinh" is absent from the domain table of main. -/
theorem absent_domain_entry_defaults_witness :
    mainParams.lookup "sinh" = none ∧
      getParams mainParams "sinh" = { lo := 0, hi := 1 } ∧
      test_inputs mainParams "sinh" [0, 1 / 2, 1] = [0, 1 / 2, 1] ∧
      (test_func "sinh" "std_dx1" [] mainParams [0, 1 / 2, 1] 10 1).params =
        { lo := 0, hi := 1 } ∧
      domainString { lo := 0, hi := 1 } = "[0, 1]" :=
  ⟨rfl, absent_domain_entry_defaults "sinh" "std_dx1" [] mainParams [0, 1 / 2, 1] 10 1 rfl⟩

/-- Claim C6: for a reported (found, hence non-empty) result with R ≥ 1
repeats, n ≥ 1 inputs and positive measured elapsed time, the evaluation
count is n·R, the reported throughput is n·R / elapsed / 1e6, and the
throughput, the elapsed time and the output size are all positive. -/
theorem reported_throughput_formula (name lib : String) (f : FunT)
    (funs : List (String × FunT)) (params : List (String × Params))
    (vals_in : List ℚ) (R : ℕ) (t : ℚ) (hf : funs.lookup name = some f)
    (hR : 1 ≤ R) (hn : 1 ≤ vals_in.length) (ht : 0 < t) :
    (test_func name lib funs params vals_in R t).n_evals = vals_in.length * R ∧
      (test_func name lib funs params vals_in R t).Mevals =
        ((vals_in.length * R : ℕ) : ℚ) / t / 1000000 ∧
      0 < (test_func name lib funs params vals_in R t).Mevals ∧
      0 < (test_func name lib funs params vals_in R t).eval_time ∧
      0 < (test_func name lib funs params vals_in R t).res.length := by
  rw [test_func_found lib params vals_in R t hf]
  have hnR : (0 : ℚ) < ((vals_in.length * R : ℕ) : ℚ) := by
    have : 0 < vals_in.length * R := Nat.mul_pos hn hR
    exact_mod_cast this
  refine ⟨rfl, rfl, ?_, ht, ?_⟩
  · show (0 : ℚ) < BenchResult.Mevals _
    rw [BenchResult.Mevals]
    exact div_pos (div_pos hnR ht) (by norm_num)
  · show 0 < (repeatRun _ (List.replicate (f.resSize vals_in.length) 0) R).length
    rw [repeatRun_eq_once _ _ R hR, length_applyWrites, List.length_replicate]
    cases f <;> simp [FunT.resSize] <;> omega

/-- Witness for C6 at a concrete found adapter. -/
theorem reported_throughput_formula_witness :
    ([("sin", scalar_func_apply (fun x => x))] : List (String × FunT)).lookup "sin" =
        some (scalar_func_apply (fun x => x)) ∧
      (test_func "sin" "std_dx1" [("sin", scalar_func_apply (fun x => x))]
          [] [0, 1] 5 2).n_evals = 2 * 5 ∧
      (test_func "sin" "std_dx1" [("sin", scalar_func_apply (fun x => x))]
          [] [0, 1] 5 2).Mevals = ((2 * 5 : ℕ) : ℚ) / 2 / 1000000 ∧
      0 < (test_func "sin" "std_dx1" [("sin", scalar_func_apply (fun x => x))]
          [] [0, 1] 5 2).Mevals :=
  let th := reported_throughput_formula "sin" "std_dx1" (scalar_func_apply (fun x => x))
    [("sin", scalar_func_apply (fun x => x))] [] [0, 1] 5 2 rfl (by decide) (by decide)
    (by decide)
  ⟨rfl, th.1, th.2.1, th.2.2.1⟩

/-- Claim C2: for a Domain (lo, hi) with lo < hi and a canonical sample with
all entries in [0, 1], the elementwise domain map is exactly
v ↦ v·(hi−lo)+lo (a pure affine map), every output lies in [lo, hi], and
the map is order-preserving. -/
theorem domain_mapper_affine (vals : List ℚ) (lo hi : ℚ) (hlt : lo < hi)
    (hv : ∀ v ∈ vals, 0 ≤ v ∧ v ≤ 1) :
    transform_domain vals lo hi = vals.map (fun v => v * (hi - lo) + lo) ∧
      (∀ w ∈ transform_domain vals lo hi, lo ≤ w ∧ w ≤ hi) ∧
      (∀ a b : ℚ, a ≤ b → a * (hi - lo) + lo ≤ b * (hi - lo) + lo) := by
  refine ⟨rfl, ?_, ?_⟩
  · intro w hw
    simp only [transform_domain, List.mem_map] at hw
    obtain ⟨v, hv', rfl⟩ := hw
    obtain ⟨h0, h1⟩ := hv v hv'
    constructor
    · nlinarith
    · nlinarith
  · intro a b hab
    nlinarith

/-- Witness for C2 on a concrete sample and domain. -/
theorem domain_mapper_affine_witness :
    (2 : ℚ) < 5 ∧ (∀ v ∈ ([0, 1 / 2, 1] : List ℚ), 0 ≤ v ∧ v ≤ 1) ∧
      (∀ w ∈ transform_domain [0, 1 / 2, 1] 2 5, 2 ≤ w ∧ w ≤ 5) :=
  ⟨by norm_num, by norm_num [List.forall_mem_cons],
   (domain_mapper_affine [0, 1 / 2, 1] 2 5 (by norm_num)
     (by norm_num [List.forall_mem_cons])).2.1⟩

/-- Claim C1: the requested function set equals the union of all backend key
sets when no filter tokens are supplied, and equals that union intersected
with the filter set otherwise; tokens naming no known function are silently
dropped. -/
theorem dispatcher_requested_set (argv : List String) (keySets : List (List String)) :
    (argv = [] → keys_to_eval (parse_args argv) (funUnion keySets) = funUnion keySets) ∧
      (argv ≠ [] → keys_to_eval (parse_args argv) (funUnion keySets) =
        funUnion keySets ∩ parse_args argv) ∧
      (∀ tok, tok ∉ funUnion keySets →
        tok ∉ keys_to_eval (parse_args argv) (funUnion keySets)) := by
  refine ⟨?_, ?_, ?_⟩
  · intro h
    subst h
    simp [parse_args, keys_to_eval]
  · intro h
    have hc : 0 < (parse_args argv).card := by
      cases argv with
      | nil => exact absurd rfl h
      | cons a as => exact Finset.card_pos.mpr ⟨a, by simp [parse_args]⟩
    simp [keys_to_eval, hc]
  · intro tok htok
    rw [keys_to_eval]
    split
    · intro hmem
      exact htok (Finset.mem_inter.mp hmem).1
    · exact htok

/-- Witness for C1: one known and one unknown filter token. -/
theorem dispatcher_requested_set_witness :
    (["sin", "bogus"] : List String) ≠ [] ∧
      keys_to_eval (parse_args ["sin", "bogus"]) (funUnion [["sin"], ["cos"]]) =
        funUnion [["sin"], ["cos"]] ∩ parse_args ["sin", "bogus"] :=
  ⟨by decide, (dispatcher_requested_set ["sin", "bogus"] [["sin"], ["cos"]]).2.1 (by decide)⟩

/-- Counterexample to C7 as stated: the complex sample is a second,
independent draw (main.cpp line 1216), handed to gsl_cdx1 and hank10x_dx1
(lines 1239, 1241) for FunctionNames the real backends also have.  At the
valid draws rand = [0] and crand = [(1, 1)], the complex call for "sin"
evaluates inputs whose real parts are [2 pi-hat] while every real-valued
backend evaluates [pi-hat], so not every backend receives the same mapped
inputs. -/
theorem shared_sample_counterexample :
    (test_inputsC mainParams "sin" (drawCSample [(1, 1)])).map Prod.fst ≠
      test_inputs mainParams "sin" (drawSample [0]) := by
  have hp : getParams mainParams "sin" = { lo := 0, hi := 2 * mpi } := by rfl
  norm_num [test_inputsC, test_inputs, hp, drawSample, drawCSample,
    transform_domain, transform_domainC, mpi]

/-- Claim C7 (amended): within one configuration each canonical sample is
drawn once; real entries and complex components lie in [0, 1]; every
real-valued backend result of the sweep is computed by `test_func` from the
single shared real sample vector, and every complex backend result by
`test_funcC` from the single shared complex sample vector --- so for a fixed
FunctionName all real-valued backends receive the same mapped inputs and all
complex backends receive the same mapped inputs, though a real-valued and a
complex backend draw from different vectors. -/
theorem shared_canonical_sample (keys : List String)
    (backends : List (String × List (String × FunT)))
    (cbackends : List (String × List (String × FunTC)))
    (params : List (String × Params)) (rand : List ℚ) (crand : List (ℚ × ℚ))
    (R : ℕ) (t : ℚ)
    (hr : ∀ x ∈ rand, -1 ≤ x ∧ x ≤ 1)
    (hc : ∀ z ∈ crand, (-1 ≤ z.1 ∧ z.1 ≤ 1) ∧ (-1 ≤ z.2 ∧ z.2 ≤ 1)) :
    (∀ v ∈ drawSample rand, 0 ≤ v ∧ v ≤ 1) ∧
      (∀ z ∈ drawCSample crand, (0 ≤ z.1 ∧ z.1 ≤ 1) ∧ (0 ≤ z.2 ∧ z.2 ≤ 1)) ∧
      (∀ r, SweepResult.real r ∈ runSweep keys backends cbackends params rand crand R t →
        ∃ key ∈ keys, ∃ b ∈ backends,
          r = test_func key b.1 b.2 params (drawSample rand) R t) ∧
      (∀ r, SweepResult.cplx r ∈ runSweep keys backends cbackends params rand crand R t →
        ∃ key ∈ keys, ∃ b ∈ cbackends,
          r = test_funcC key b.1 b.2 params (drawCSample crand) R t) := by
  refine ⟨?_, ?_, ?_, ?_⟩
  · intro v hv
    simp only [drawSample, List.mem_map] at hv
    obtain ⟨x, hx, rfl⟩ := hv
    obtain ⟨h1, h2⟩ := hr x hx
    constructor <;> linarith
  · intro z hz
    simp only [drawCSample, List.mem_map] at hz
    obtain ⟨w, hw, rfl⟩ := hz
    obtain ⟨⟨a1, a2⟩, b1, b2⟩ := hc w hw
    exact ⟨⟨by linarith, by linarith⟩, by linarith, by linarith⟩
  · intro r hmem
    simp only [runSweep, List.mem_flatMap, List.mem_append, List.mem_map] at hmem
    obtain ⟨key, hkey, hcase⟩ := hmem
    rcases hcase with ⟨b, hb, heq⟩ | ⟨b, hb, heq⟩
    · injection heq with h
      exact ⟨key, hkey, b, hb, h.symm⟩
    · exact SweepResult.noConfusion heq
  · intro r hmem
    simp only [runSweep, List.mem_flatMap, List.mem_append, List.mem_map] at hmem
    obtain ⟨key, hkey, hcase⟩ := hmem
    rcases hcase with ⟨b, hb, heq⟩ | ⟨b, hb, heq⟩
    · exact SweepResult.noConfusion heq
    · injection heq with h
      exact ⟨key, hkey, b, hb, h.symm⟩

/-- Witness for C7 with concrete samples, a key, and one backend of each
value type. -/
theorem shared_canonical_sample_witness :
    (∀ x ∈ ([1 / 2] : List ℚ), -1 ≤ x ∧ x ≤ 1) ∧
      (∀ v ∈ drawSample [1 / 2], 0 ≤ v ∧ v ≤ 1) :=
  ⟨by norm_num [List.forall_mem_cons],
   (shared_canonical_sample ["sin"] [("std_dx1", [])] [("gsl_cdx1", [])] []
     [1 / 2] [(0, 1)] 1 1 (by norm_num [List.forall_mem_cons])
     (by norm_num [List.forall_mem_cons])).1⟩

/-- Helper: the lanes touched by the strided loop started at `i` are exactly
the indices from `i` to `N - 1`, provided the residual trip count `N - i` is
a multiple of the lane width. -/
theorem loopStartsAux_lanes (W N : ℕ) (hW : 0 < W) :
    ∀ (fuel i : ℕ), N - i < fuel → W ∣ N - i →
      (loopStartsAux W N fuel i).flatMap (fun s => (List.range W).map (fun j => s + j)) =
        List.range' i (N - i) := by
  intro fuel
  induction fuel with
  | zero => intro i h hd; exact absurd h (by omega)
  | succ n ih =>
    intro i h hd
    rw [loopStartsAux]
    by_cases hiN : i < N
    · rw [if_pos hiN]
      have hWle : W ≤ N - i := Nat.le_of_dvd (by omega) hd
      have hsub : N - (i + W) = N - i - W := by omega
      have hd' : W ∣ N - (i + W) := by
        rw [hsub]; exact Nat.dvd_sub' hd (dvd_refl W)
      have hlt' : N - (i + W) < n := by omega
      rw [List.flatMap_cons, ih (i + W) hlt' hd', ← List.range'_eq_map_range i W]
      have happ := List.range'_append i W (N - (i + W)) 1
      simp only [one_mul] at happ
      rw [happ]
      congr 1
      omega
    · rw [if_neg hiN]
      have h0 : N - i = 0 := by omega
      simp [h0]

/-- Helper: under the lane-width contract, one strided pass touches exactly
the indices 0, …, N-1. -/
theorem laneIndices_eq_range (W N : ℕ) (hW : 0 < W) (hd : W ∣ N) :
    laneIndices W N = List.range N := by
  rw [laneIndices, loopStarts,
    loopStartsAux_lanes W N hW (N + 1) 0 (by omega) (by simpa using hd),
    List.range_eq_range']
  simp

/-- Claim C9: for the batched vector adapters with lane width W, if W divides
the buffer size n then one evaluation stores to exactly the output positions
0 … n-1 (each once, in order), and the loads touch exactly the same index
set, so no read or write index leaves [0, n). -/
theorem strided_adapter_bounds (W : ℕ) (fv : List ℚ → ℕ → ℚ) (vals : List ℚ)
    (hW : 0 < W) (hd : W ∣ vals.length) :
    laneIndices W vals.length = List.range vals.length ∧
      (sctl_apply W fv vals).map Prod.fst = List.range vals.length ∧
      (vec_func_apply W fv vals).map Prod.fst = List.range vals.length := by
  have hlane := laneIndices_eq_range W vals.length hW hd
  have hmap : ∀ i : ℕ,
      List.map Prod.fst ((List.range W).map
        (fun j => ((i + j, fv ((vals.drop i).take W) j) : ℕ × ℚ))) =
      (List.range W).map (fun j => i + j) := by
    intro i
    rw [List.map_map]
    rfl
  constructor
  · exact hlane
  constructor
  · rw [sctl_apply, List.map_flatMap]
    simp only [hmap]
    exact hlane
  · rw [vec_func_apply, List.map_flatMap]
    simp only [hmap]
    exact hlane

/-- Witness for C9: lane width 4 over a buffer of 8 cells. -/
theorem strided_adapter_bounds_witness :
    0 < 4 ∧ 4 ∣ (List.replicate 8 (0 : ℚ)).length ∧
      (sctl_apply 4 (fun _ _ => 0) (List.replicate 8 0)).map Prod.fst =
        List.range (List.replicate 8 (0 : ℚ)).length :=
  ⟨by decide, by decide,
   (strided_adapter_bounds 4 (fun _ _ => 0) (List.replicate 8 0) (by decide)
     (by decide)).2.1⟩

/-- Helper: the pair-output loop started at index `i` never stores below
position 2i. -/
theorem lastWrite_pairWritesFrom_lt (f : ℚ → ℚ × ℚ) :
    ∀ (vs : List ℚ) (i j : ℕ), j < 2 * i →
      lastWrite (pairWritesFrom f i vs) j = none
  | [], _, _, _ => rfl
  | v :: vs, i, j, h => by
    simp only [pairWritesFrom, lastWrite]
    rw [lastWrite_pairWritesFrom_lt f vs (i + 1) j (by omega),
      if_neg (by omega : ¬ 2 * i + 1 = j), if_neg (by omega : ¬ 2 * i = j)]
    rfl

/-- Helper: the pair-output loop started at index `i` stores the first
component of the k-th pair at position 2(i+k). -/
theorem lastWrite_pairWritesFrom_even (f : ℚ → ℚ × ℚ) :
    ∀ (vs : List ℚ) (i k : ℕ) (v : ℚ), vs[k]? = some v →
      lastWrite (pairWritesFrom f i vs) (2 * (i + k)) = some ((f v).1)
  | [], _, k, _, h => by simp at h
  | u :: vs, i, k, v, h => by
    simp only [pairWritesFrom, lastWrite]
    cases k with
    | zero =>
      have hv : u = v := by simpa using h
      subst hv
      rw [lastWrite_pairWritesFrom_lt f vs (i + 1) (2 * (i + 0)) (by omega),
        if_neg (by omega : ¬ 2 * i + 1 = 2 * (i + 0)),
        if_pos (by omega : 2 * i = 2 * (i + 0))]
      rfl
    | succ k' =>
      have h' : vs[k']? = some v := by simpa using h
      have hidx : 2 * (i + (k' + 1)) = 2 * ((i + 1) + k') := by omega
      rw [hidx, lastWrite_pairWritesFrom_even f vs (i + 1) k' v h',
        if_neg (by omega : ¬ 2 * i + 1 = 2 * ((i + 1) + k')),
        if_neg (by omega : ¬ 2 * i = 2 * ((i + 1) + k'))]
      rfl

/-- Helper: the pair-output loop started at index `i` stores the second
component of the k-th pair at position 2(i+k)+1. -/
theorem lastWrite_pairWritesFrom_odd (f : ℚ → ℚ × ℚ) :
    ∀ (vs : List ℚ) (i k : ℕ) (v : ℚ), vs[k]? = some v →
      lastWrite (pairWritesFrom f i vs) (2 * (i + k) + 1) = some ((f v).2)
  | [], _, k, _, h => by simp at h
  | u :: vs, i, k, v, h => by
    simp only [pairWritesFrom, lastWrite]
    cases k with
    | zero =>
      have hv : u = v := by simpa using h
      subst hv
      rw [lastWrite_pairWritesFrom_lt f vs (i + 1) (2 * (i + 0) + 1) (by omega),
        if_pos (by omega : 2 * i + 1 = 2 * (i + 0) + 1),
        if_neg (by omega : ¬ 2 * i = 2 * (i + 0) + 1)]
      rfl
    | succ k' =>
      have h' : vs[k']? = some v := by simpa using h
      have hidx : 2 * (i + (k' + 1)) + 1 = 2 * ((i + 1) + k') + 1 := by omega
      rw [hidx, lastWrite_pairWritesFrom_odd f vs (i + 1) k' v h',
        if_neg (by omega : ¬ 2 * i + 1 = 2 * ((i + 1) + k') + 1),
        if_neg (by omega : ¬ 2 * i = 2 * ((i + 1) + k') + 1)]
      rfl

/-- Helper: the domain-mapped buffer has the input's length. -/
theorem length_test_inputs (params : List (String × Params)) (name : String)
    (vals_in : List ℚ) : (test_inputs params name vals_in).length = vals_in.length := by
  rw [test_inputs]
  exact length_transform_domain vals_in _ _

/-- Helper: the output buffer of a found adapter is the allocated
`res_size`-cell buffer after the repeated writes. -/
theorem test_func_res {funs : List (String × FunT)} {name : String} {f : FunT}
    (lib : String) (params : List (String × Params)) (vals_in : List ℚ)
    (Nrepeat : ℕ) (elapsed : ℚ) (h : funs.lookup name = some f) :
    (test_func name lib funs params vals_in Nrepeat elapsed).res =
      repeatRun (f.writes (test_inputs params name vals_in))
        (List.replicate (f.resSize vals_in.length) 0) Nrepeat := by
  rw [test_func_found lib params vals_in Nrepeat elapsed h]

/-- Claim C5: a pair-output adapter gets an output buffer of size exactly 2n,
with the pair for the k-th input stored at positions 2k and 2k+1; every
other adapter variant gets an output buffer of size exactly n. -/
theorem adapter_output_layout (name lib : String) (fn : FunT)
    (funs : List (String × FunT)) (params : List (String × Params))
    (vals_in : List ℚ) (R : ℕ) (t : ℚ)
    (hf : funs.lookup name = some fn) (hR : 1 ≤ R) :
    (∀ f, fn = FunT.pairFn f →
      (test_func name lib funs params vals_in R t).res.length = 2 * vals_in.length ∧
        ∀ k v, (test_inputs params name vals_in)[k]? = some v →
          (test_func name lib funs params vals_in R t).res[2 * k]? = some ((f v).1) ∧
            (test_func name lib funs params vals_in R t).res[2 * k + 1]? =
              some ((f v).2)) ∧
      (∀ g, fn = FunT.baobziFn g →
        (test_func name lib funs params vals_in R t).res.length = vals_in.length) ∧
      (∀ g, fn = FunT.multiFn g →
        (test_func name lib funs params vals_in R t).res.length = vals_in.length) := by
  have hlen : (test_func name lib funs params vals_in R t).res.length =
      fn.resSize vals_in.length := by
    rw [test_func_res lib params vals_in R t hf, repeatRun_eq_once _ _ R hR,
      length_applyWrites, List.length_replicate]
  refine ⟨?_, ?_, ?_⟩
  · rintro f rfl
    refine ⟨by simpa [FunT.resSize] using hlen, ?_⟩
    intro k v hkv
    have hk : k < vals_in.length := by
      by_contra hkk
      rw [List.getElem?_eq_none (by rw [length_test_inputs]; omega)] at hkv
      cases hkv
    have hres := @test_func_res funs name (FunT.pairFn f) lib params
      vals_in R t hf
    rw [repeatRun_eq_once _ _ R hR] at hres
    constructor
    · rw [hres, getElem?_applyWrites _ _ _
        (by rw [List.length_replicate]; show 2 * k < (FunT.pairFn f).resSize vals_in.length
            simp [FunT.resSize]; omega)]
      have he := lastWrite_pairWritesFrom_even f (test_inputs params name vals_in) 0 k v hkv
      simp only [Nat.zero_add] at he
      show (lastWrite (pairWritesFrom f 0 (test_inputs params name vals_in)) (2 * k)).or
        (List.replicate ((FunT.pairFn f).resSize vals_in.length) 0)[2 * k]? = some ((f v).1)
      rw [he]
      rfl
    · rw [hres, getElem?_applyWrites _ _ _
        (by rw [List.length_replicate]
            show 2 * k + 1 < (FunT.pairFn f).resSize vals_in.length
            simp [FunT.resSize]; omega)]
      have ho := lastWrite_pairWritesFrom_odd f (test_inputs params name vals_in) 0 k v hkv
      simp only [Nat.zero_add] at ho
      show (lastWrite (pairWritesFrom f 0 (test_inputs params name vals_in)) (2 * k + 1)).or
        (List.replicate ((FunT.pairFn f).resSize vals_in.length) 0)[2 * k + 1]? =
          some ((f v).2)
      rw [ho]
      rfl
  · rintro g rfl
    simpa [FunT.resSize] using hlen
  · rintro g rfl
    simpa [FunT.resSize] using hlen

/-- Witness for C5: a concrete pair-output adapter on a two-element buffer. -/
theorem adapter_output_layout_witness :
    ([("hank103", FunT.pairFn (fun z => (z, z + 1)))] : List (String × FunT)).lookup
        "hank103" = some (FunT.pairFn (fun z => (z, z + 1))) ∧
      1 ≤ 1 ∧
      (test_func "hank103" "hank10x_dx1" [("hank103", FunT.pairFn (fun z => (z, z + 1)))]
          [] [5, 7] 1 1).res.length = 2 * 2 ∧
      (test_func "hank103" "hank10x_dx1" [("hank103", FunT.pairFn (fun z => (z, z + 1)))]
          [] [5, 7] 1 1).res[2 * 1]? = some 7 ∧
      (test_func "hank103" "hank10x_dx1" [("hank103", FunT.pairFn (fun z => (z, z + 1)))]
          [] [5, 7] 1 1).res[2 * 1 + 1]? = some (7 + 1) := by
  have th := adapter_output_layout "hank103" "hank10x_dx1"
    (FunT.pairFn (fun z => (z, z + 1)))
    [("hank103", FunT.pairFn (fun z => (z, z + 1)))] [] [5, 7] 1 1 rfl (by decide)
  have hp := th.1 (fun z => (z, z + 1)) rfl
  have hin : (test_inputs [] "hank103" [5, 7])[1]? = some 7 := by
    norm_num [test_inputs, getParams, transform_domain]
  exact ⟨rfl, by decide, hp.1, (hp.2 1 7 hin).1, (hp.2 1 7 hin).2⟩
